import Mathlib

/-!
Shallow embedding of the ocr-svc repository's core logic:
the response parser / field normalizer (`app/utils/response_parser.py`,
`utils.py`), the adaptive tiling pipeline (`app/services/ai_model_service.py`),
and folder batch processing (`app/services/ocr_service.py`).

Python strings are modelled as Lean `String` / `List Char`; Python values
flowing out of `json.loads` are modelled by the inductive `PyVal`;
exceptions are modelled with `Except String`.  Machine floats in the
aspect-ratio selector are modelled with exact rationals `ℚ`.
-/

/-- Python whitespace predicate for `str.strip` and the `\s` regex class
(ASCII range; the repository's inputs are in this range). -/
def isPySpace (c : Char) : Bool :=
  c = ' ' || c = '\t' || c = '\n' || c = '\r' || c = '\x0b' || c = '\x0c'

/-- Remove trailing whitespace from a character list (right half of `str.strip`). -/
def rstripList (l : List Char) : List Char :=
  l.foldr (fun c acc => if acc.isEmpty && isPySpace c then [] else c :: acc) []

/-- Python `str.strip()` on a character list: drop leading and trailing whitespace. -/
def pyStripList (l : List Char) : List Char :=
  rstripList (l.dropWhile isPySpace)

/-- Python `str.strip()` on a `String`. -/
def pyStrip (s : String) : String :=
  String.mk (pyStripList s.toList)

/-- Python `str.lower()` (ASCII case folding; the keyword checks the
repository performs on ASCII text only depend on this range). -/
def lowerList (l : List Char) : List Char :=
  l.map Char.toLower

/-- Python `str.split(sep)` for a one-character separator: split at every
occurrence, keeping empty segments (`"a||b".split("|") = ["a","","b"]`). -/
def splitOnChar (c : Char) : List Char → List (List Char)
  | [] => [[]]
  | x :: xs =>
    match splitOnChar c xs with
    | [] => [[]]
    | t :: ts => if x = c then [] :: t :: ts else (x :: t) :: ts

/-- Python values produced by `json.loads` and manipulated by the parser.
A JSON number without fractional/exponent part is an `int`; other numbers
become `float` and carry their source lexeme. -/
inductive PyVal where
  | str : String → PyVal
  | int : Int → PyVal
  | float : String → PyVal
  | bool : Bool → PyVal
  | null : PyVal
  | list : List PyVal → PyVal
  | dict : List (String × PyVal) → PyVal

/-- Single-quote a string, as Python `repr` does for `str` values. -/
def quoteStr (s : String) : String :=
  String.singleton '\'' ++ s ++ String.singleton '\''

/-- Join strings with a comma-space, as Python container `repr` does. -/
def joinComma : List String → String
  | [] => ""
  | [s] => s
  | s :: rest => s ++ ", " ++ joinComma rest

mutual

/-- Python `repr` of a value (used by `str()` inside containers).  Float
formatting is represented by the number's source lexeme; no verified claim
evaluates `repr` on floats or containers. -/
def pyRepr : PyVal → String
  | PyVal.str s => quoteStr s
  | PyVal.int n => toString n
  | PyVal.float lex => lex
  | PyVal.bool b => if b then "True" else "False"
  | PyVal.null => "None"
  | PyVal.list xs => "[" ++ joinComma (pyReprList xs) ++ "]"
  | PyVal.dict kvs => "\x7b" ++ joinComma (pyReprPairs kvs) ++ "\x7d"

/-- Python `repr` of each element of a list value. -/
def pyReprList : List PyVal → List String
  | [] => []
  | v :: vs => pyRepr v :: pyReprList vs

/-- Python `repr` of each key/value pair of a dict value. -/
def pyReprPairs : List (String × PyVal) → List String
  | [] => []
  | kv :: kvs => (quoteStr kv.1 ++ ": " ++ pyRepr kv.2) :: pyReprPairs kvs

end

/-- Python `str()` of a value. -/
def pyStr : PyVal → String
  | PyVal.str s => s
  | PyVal.int n => toString n
  | PyVal.float lex => lex
  | PyVal.bool b => if b then "True" else "False"
  | PyVal.null => "None"
  | v => pyRepr v

/-- Python `dict.get(key, default)`.  The assoc list keeps pairs in source
order; as in a Python dict built from pairs, a duplicated key's last value
wins, hence the lookup from the right. -/
def dictGet (kvs : List (String × PyVal)) (key : String) (dflt : PyVal) : PyVal :=
  match kvs.reverse.find? (fun kv => kv.1 == key) with
  | some kv => kv.2
  | Option.none => dflt

/-- Normalized product record produced by
`ResponseParser._normalize_product_data` (English field names). -/
structure Product where
  name : String
  quantity : String
  unit_price : String
  total : String
deriving DecidableEq

/-- One record of `ResponseParser._normalize_product_data`'s loop body:
`str(product.get(key, default)).strip()` for each of the four fields. -/
def mkRespRecord (kvs : List (String × PyVal)) : Product :=
  Product.mk
    (pyStrip (pyStr (dictGet kvs "ten_hang" (PyVal.str ""))))
    (pyStrip (pyStr (dictGet kvs "so_luong" (PyVal.str "0"))))
    (pyStrip (pyStr (dictGet kvs "don_gia" (PyVal.str "0"))))
    (pyStrip (pyStr (dictGet kvs "thanh_tien" (PyVal.str "0"))))

/-- Model of `ResponseParser._normalize_product_data`: build a record per product,
keep it only when the trimmed name is non-empty; a non-dict element raises
`AttributeError` (it has no `.get`), modelled as `Except.error`. -/
def normalizeProductData : List PyVal → Except String (List Product)
  | [] => Except.ok []
  | PyVal.dict kvs :: rest =>
    match normalizeProductData rest with
    | Except.ok tl =>
      if (mkRespRecord kvs).name = "" then Except.ok tl
      else Except.ok (mkRespRecord kvs :: tl)
    | Except.error e => Except.error e
  | _ :: _ => Except.error "AttributeError: object has no attribute get"

/-- The dict that `_normalize_product_data` appends for a kept record,
as it would re-enter the normalizer (English keys). -/
def respProductToDict (p : Product) : PyVal :=
  PyVal.dict
    [("name", PyVal.str p.name), ("quantity", PyVal.str p.quantity),
     ("unit_price", PyVal.str p.unit_price), ("total", PyVal.str p.total)]

/-- Normalized product record of the standalone `utils.normalize_product_data`
(domain field names, same on input and output). -/
structure UtilsProduct where
  ten_hang : String
  so_luong : String
  don_gia : String
  thanh_tien : String
deriving DecidableEq

/-- One record of `utils.normalize_product_data`'s loop body. -/
def mkUtilsRecord (kvs : List (String × PyVal)) : UtilsProduct :=
  UtilsProduct.mk
    (pyStrip (pyStr (dictGet kvs "ten_hang" (PyVal.str ""))))
    (pyStrip (pyStr (dictGet kvs "so_luong" (PyVal.str "0"))))
    (pyStrip (pyStr (dictGet kvs "don_gia" (PyVal.str "0"))))
    (pyStrip (pyStr (dictGet kvs "thanh_tien" (PyVal.str "0"))))

/-- Model of `utils.normalize_product_data`: same loop as the class variant but the
output dict reuses the domain keys `ten_hang`/`so_luong`/`don_gia`/`thanh_tien`. -/
def utilsNormalizeProductData : List PyVal → Except String (List UtilsProduct)
  | [] => Except.ok []
  | PyVal.dict kvs :: rest =>
    match utilsNormalizeProductData rest with
    | Except.ok tl =>
      if (mkUtilsRecord kvs).ten_hang = "" then Except.ok tl
      else Except.ok (mkUtilsRecord kvs :: tl)
    | Except.error e => Except.error e
  | _ :: _ => Except.error "AttributeError: object has no attribute get"

/-- The dict that `utils.normalize_product_data` appends for a kept record
(domain keys), as it would re-enter the normalizer. -/
def utilsProductToDict (p : UtilsProduct) : PyVal :=
  PyVal.dict
    [("ten_hang", PyVal.str p.ten_hang), ("so_luong", PyVal.str p.so_luong),
     ("don_gia", PyVal.str p.don_gia), ("thanh_tien", PyVal.str p.thanh_tien)]

/-- JSON whitespace (`json.decoder`: space, tab, newline, carriage return). -/
def isJsonWs (c : Char) : Bool :=
  c = ' ' || c = '\t' || c = '\n' || c = '\r'

/-- Hex digit value, for `\uXXXX` string escapes. -/
def hexVal (c : Char) : Option Nat :=
  if '0' ≤ c && c ≤ '9' then some (c.toNat - 48)
  else if 'a' ≤ c && c ≤ 'f' then some (c.toNat - 87)
  else if 'A' ≤ c && c ≤ 'F' then some (c.toNat - 70)
  else Option.none

/-- Body of a JSON string after the opening quote: returns the decoded
string and the rest after the closing quote.  Strict mode: unescaped
control characters are rejected, as `json.loads` does by default.
(Surrogate-pair recombination is not modelled; no claim exercises it.
Fuelled so that the definition is structurally recursive; callers supply
ample fuel.) -/
def parseJsonStringBody : Nat → List Char → List Char → Option (String × List Char)
  | 0, _, _ => Option.none
  | Nat.succ _, _, [] => Option.none
  | Nat.succ fuel, acc, c :: rest =>
    if c = '"' then some (String.mk acc.reverse, rest)
    else if c = '\\' then
      match rest with
      | [] => Option.none
      | e :: rest2 =>
        if e = '"' then parseJsonStringBody fuel ('"' :: acc) rest2
        else if e = '\\' then parseJsonStringBody fuel ('\\' :: acc) rest2
        else if e = '/' then parseJsonStringBody fuel ('/' :: acc) rest2
        else if e = 'b' then parseJsonStringBody fuel ('\x08' :: acc) rest2
        else if e = 'f' then parseJsonStringBody fuel ('\x0c' :: acc) rest2
        else if e = 'n' then parseJsonStringBody fuel ('\n' :: acc) rest2
        else if e = 'r' then parseJsonStringBody fuel ('\r' :: acc) rest2
        else if e = 't' then parseJsonStringBody fuel ('\t' :: acc) rest2
        else if e = 'u' then
          match rest2 with
          | h1 :: h2 :: h3 :: h4 :: rest3 =>
            match hexVal h1, hexVal h2, hexVal h3, hexVal h4 with
            | some a, some b, some c2, some d =>
              parseJsonStringBody fuel (Char.ofNat (((a * 16 + b) * 16 + c2) * 16 + d) :: acc) rest3
            | _, _, _, _ => Option.none
          | _ => Option.none
        else Option.none
    else if c.toNat < 32 then Option.none
    else parseJsonStringBody fuel (c :: acc) rest

/-- Integer part of a JSON number per the scanner regex `(-?(0|[1-9]\d*))`:
a leading `0` matches alone; otherwise a maximal run of digits. -/
def parseIntDigits : List Char → Option (List Char × List Char)
  | [] => Option.none
  | c :: rest =>
    if c = '0' then some (['0'], rest)
    else if c.isDigit then
      some ((c :: rest).takeWhile Char.isDigit, (c :: rest).dropWhile Char.isDigit)
    else Option.none

/-- Digits to a natural number. -/
def digitsToNat (ds : List Char) : Nat :=
  ds.foldl (fun n c => 10 * n + (c.toNat - 48)) 0

/-- A JSON number per the scanner regex
`(-?(0|[1-9]\d*))(\.\d+)?([eE][-+]?\d+)?`.  Integer-form numbers become
`PyVal.int`; fraction/exponent forms become `PyVal.float` carrying the lexeme. -/
def parseJsonNumber (l : List Char) : Option (PyVal × List Char) :=
  let signed : Bool × List Char := match l with
    | '-' :: r => (true, r)
    | _ => (false, l)
  match parseIntDigits signed.2 with
  | Option.none => Option.none
  | some (ip, r1) =>
    let frac : List Char × List Char := match r1 with
      | '.' :: rest =>
        if (rest.takeWhile Char.isDigit).isEmpty then ([], r1)
        else ('.' :: rest.takeWhile Char.isDigit, rest.dropWhile Char.isDigit)
      | _ => ([], r1)
    let ex : List Char × List Char := match frac.2 with
      | e :: '+' :: rest =>
        if (e = 'e' || e = 'E') && !(rest.takeWhile Char.isDigit).isEmpty then
          (e :: '+' :: rest.takeWhile Char.isDigit, rest.dropWhile Char.isDigit)
        else ([], frac.2)
      | e :: '-' :: rest =>
        if (e = 'e' || e = 'E') && !(rest.takeWhile Char.isDigit).isEmpty then
          (e :: '-' :: rest.takeWhile Char.isDigit, rest.dropWhile Char.isDigit)
        else ([], frac.2)
      | e :: rest =>
        if (e = 'e' || e = 'E') && !(rest.takeWhile Char.isDigit).isEmpty then
          (e :: rest.takeWhile Char.isDigit, rest.dropWhile Char.isDigit)
        else ([], frac.2)
      | _ => ([], frac.2)
    if frac.1.isEmpty && ex.1.isEmpty then
      let n : Int := Int.ofNat (digitsToNat ip)
      some (PyVal.int (if signed.1 then -n else n), r1)
    else
      some (PyVal.float (String.mk ((if signed.1 then ['-'] else []) ++ ip ++ frac.1 ++ ex.1)), ex.2)

mutual

/-- Recursive-descent JSON value parser modelling `json.loads` (fuelled;
the top-level entry supplies ample fuel).  Accepts the non-standard
constants `NaN`, `Infinity`, `-Infinity` as CPython's decoder does. -/
def parseJsonValue : Nat → List Char → Option (PyVal × List Char)
  | 0, _ => Option.none
  | Nat.succ fuel, l =>
    match l.dropWhile isJsonWs with
    | '"' :: rest =>
      match parseJsonStringBody (rest.length + 1) [] rest with
      | some (s, r) => some (PyVal.str s, r)
      | Option.none => Option.none
    | '[' :: rest =>
      match rest.dropWhile isJsonWs with
      | ']' :: r2 => some (PyVal.list [], r2)
      | _ => parseJsonArrayItems fuel rest []
    | '\x7b' :: rest =>
      match rest.dropWhile isJsonWs with
      | '\x7d' :: r2 => some (PyVal.dict [], r2)
      | _ => parseJsonObjectItems fuel rest []
    | 't' :: 'r' :: 'u' :: 'e' :: rest => some (PyVal.bool true, rest)
    | 'f' :: 'a' :: 'l' :: 's' :: 'e' :: rest => some (PyVal.bool false, rest)
    | 'n' :: 'u' :: 'l' :: 'l' :: rest => some (PyVal.null, rest)
    | 'N' :: 'a' :: 'N' :: rest => some (PyVal.float "nan", rest)
    | 'I' :: 'n' :: 'f' :: 'i' :: 'n' :: 'i' :: 't' :: 'y' :: rest =>
      some (PyVal.float "inf", rest)
    | '-' :: 'I' :: 'n' :: 'f' :: 'i' :: 'n' :: 'i' :: 't' :: 'y' :: rest =>
      some (PyVal.float "-inf", rest)
    | c :: rest =>
      if c = '-' || c.isDigit then parseJsonNumber (c :: rest) else Option.none
    | [] => Option.none

/-- Comma-separated array items after `[`, accumulating parsed values. -/
def parseJsonArrayItems : Nat → List Char → List PyVal → Option (PyVal × List Char)
  | 0, _, _ => Option.none
  | Nat.succ fuel, l, acc =>
    match parseJsonValue fuel l with
    | Option.none => Option.none
    | some (v, r) =>
      match r.dropWhile isJsonWs with
      | ',' :: r2 => parseJsonArrayItems fuel r2 (acc ++ [v])
      | ']' :: r2 => some (PyVal.list (acc ++ [v]), r2)
      | _ => Option.none

/-- Comma-separated `"key": value` items after an opening brace. -/
def parseJsonObjectItems : Nat → List Char → List (String × PyVal) → Option (PyVal × List Char)
  | 0, _, _ => Option.none
  | Nat.succ fuel, l, acc =>
    match l.dropWhile isJsonWs with
    | '"' :: rest =>
      match parseJsonStringBody (rest.length + 1) [] rest with
      | Option.none => Option.none
      | some (k, r) =>
        match r.dropWhile isJsonWs with
        | ':' :: r2 =>
          match parseJsonValue fuel r2 with
          | Option.none => Option.none
          | some (v, r3) =>
            match r3.dropWhile isJsonWs with
            | ',' :: r4 => parseJsonObjectItems fuel r4 (acc ++ [(k, v)])
            | '\x7d' :: r4 => some (PyVal.dict (acc ++ [(k, v)]), r4)
            | _ => Option.none
        | _ => Option.none
    | _ => Option.none

end

/-- Model of `json.loads`: parse one value and require only whitespace after it;
any failure is a `JSONDecodeError`, modelled as `Option.none`. -/
def jsonLoads (l : List Char) : Option PyVal :=
  match parseJsonValue (2 * l.length + 2) l with
  | some (v, rest) => if (rest.dropWhile isJsonWs).isEmpty then some v else Option.none
  | Option.none => Option.none

/-- The separator-line test `re.match(r'^[\|\s]*---', line)` of
`ResponseParser._parse_ocr_response_to_json`: a (possibly empty) run of
pipes/whitespace followed by `---`.  Since `-` is not in the bracket
class, greedy matching with backtracking is equivalent to dropping the
maximal run and then requiring the `---` prefix. -/
def isSeparatorLine (line : List Char) : Bool :=
  ((line.dropWhile (fun c => c = '|' || isPySpace c)).take 3) == ['-', '-', '-']

/-- Header keywords skipped before the separator (lower-cased substrings). -/
def headerKeywords : List (List Char) :=
  ["tên hàng".toList, "ten hang".toList, "số lượng".toList, "so luong".toList]

/-- Python substring test `needle in hay`. -/
def containsSub (needle : List Char) : List Char → Bool
  | [] => needle.isEmpty
  | c :: rest => needle.isPrefixOf (c :: rest) || containsSub needle rest

/-- Model of `any(keyword in line.lower() for keyword in [...])`. -/
def containsHeaderKeyword (line : List Char) : Bool :=
  headerKeywords.any (fun kw => containsSub kw (lowerList line))

/-- One iteration of the line loop of
`ResponseParser._parse_ocr_response_to_json`.  State: `header_passed`
(false = before the separator) and the accumulated product dicts. -/
def lineStep (st : Bool × List PyVal) (rawLine : List Char) : Bool × List PyVal :=
  let line := pyStripList rawLine
  if line.isEmpty then st
  else if isSeparatorLine line then (true, st.2)
  else if !st.1 && containsHeaderKeyword line then st
  else if line.contains '|' && st.1 then
    let parts := ((splitOnChar '|' line).map pyStripList).filter (fun p => !p.isEmpty)
    if 4 ≤ parts.length then
      (st.1, st.2 ++ [PyVal.dict
        [("ten_hang", PyVal.str (String.mk (parts.getD 0 []))),
         ("so_luong", PyVal.str (String.mk (parts.getD 1 []))),
         ("don_gia", PyVal.str (String.mk (parts.getD 2 []))),
         ("thanh_tien", PyVal.str (String.mk (parts.getD 3 [])))]])
    else st
  else st

/-- The markdown-table pass of `_parse_ocr_response_to_json`:
`response.strip().split('\n')` folded through the line loop. -/
def parseTableRows (response : String) : List PyVal :=
  ((splitOnChar '\n' (pyStripList response.toList)).foldl lineStep (false, [])).2

/-- Take up to the last occurrence of `c` (inclusive); `none` when absent. -/
def takeToLast (c : Char) : List Char → Option (List Char)
  | [] => Option.none
  | x :: xs =>
    match takeToLast c xs with
    | some t => some (x :: t)
    | Option.none => if x = c then some [x] else Option.none

/-- Model of `re.search(r'\[.*\]|\{.*\}', response, re.DOTALL)`: the leftmost
position holding `[` with a later `]` (or `{` with a later `}`) starts the
match, which greedily extends to the last such closing character. -/
def extractJson : List Char → Option (List Char)
  | [] => Option.none
  | x :: xs =>
    if x = '[' then
      match takeToLast ']' xs with
      | some t => some (x :: t)
      | Option.none => extractJson xs
    else if x = '\x7b' then
      match takeToLast '\x7d' xs with
      | some t => some (x :: t)
      | Option.none => extractJson xs
    else extractJson xs

/-- Model of `ResponseParser._parse_ocr_response_to_json`: table pass first; if it
produced nothing, the JSON fallback on the raw response.  A decode failure
is swallowed (`except json.JSONDecodeError: pass`), leaving `[]`. -/
def parseOcrResponseToJson (response : String) : List PyVal :=
  let products := parseTableRows response
  if products.isEmpty then
    match extractJson response.toList with
    | some sub =>
      match jsonLoads sub with
      | some (PyVal.list l) => l
      | some (PyVal.dict kvs) => [PyVal.dict kvs]
      | some _ => []
      | Option.none => []
    | Option.none => []
  else products

/-- Model of `ResponseParser.parse_ocr_response`: parse then normalize. -/
def parseOcrResponse (response : String) : Except String (List Product) :=
  normalizeProductData (parseOcrResponseToJson response)

/-- One iteration of `AIModelService._find_closest_aspect_ratio`'s loop.
`best.1 = Option.none` models the initial `best_ratio_diff = inf` (every
finite difference compares below it).  Machine floats are modelled by
exact rationals. -/
def ratioStep (ar area : ℚ) (imageSize : ℕ) (best : Option ℚ × (ℕ × ℕ)) (pr : ℕ × ℕ) :
    Option ℚ × (ℕ × ℕ) :=
  let tar : ℚ := (pr.1 : ℚ) / (pr.2 : ℚ)
  let ratioDiff := |ar - tar|
  match best with
  | (Option.none, _) => (some ratioDiff, pr)
  | (some bestDiff, bestPair) =>
    if ratioDiff < bestDiff then (some ratioDiff, pr)
    else if ratioDiff = bestDiff then
      if area > 1 / 2 * (imageSize : ℚ) * (imageSize : ℚ) * (pr.1 : ℚ) * (pr.2 : ℚ) then
        (some bestDiff, pr)
      else (some bestDiff, bestPair)
    else (some bestDiff, bestPair)

/-- Model of `AIModelService._find_closest_aspect_ratio` (the selected pair; the
running best starts at `((1,1), inf)`). -/
def findClosestAspectRatioPair (ar : ℚ) (trs : List (ℕ × ℕ))
    (width height imageSize : ℕ) : ℕ × ℕ :=
  (trs.foldl (ratioStep ar ((width : ℚ) * (height : ℚ)) imageSize)
    (Option.none, (1, 1))).2

/-- The candidate grids of `AIModelService._dynamic_preprocess`: all pairs
`(i, j)` with `min_num ≤ i*j ≤ max_num`, deduplicated (the Python set) and
stably sorted by tile count (`sorted(..., key=lambda x: x[0]*x[1])`; a
stable insertion sort computes the same list as Python's stable sort.  The
set's internal order feeds the sort, and no verified property depends on
the order of product-tied pairs). -/
def targetRatios (minNum maxNum : ℕ) : List (ℕ × ℕ) :=
  List.insertionSort (fun a b => a.1 * a.2 ≤ b.1 * b.2)
    ((((List.range' minNum (maxNum + 1 - minNum)).flatMap (fun n =>
        (List.range' 1 n).flatMap (fun i =>
          (List.range' 1 n).map (fun j => (i, j))))).filter
        (fun p => decide (p.1 * p.2 ≤ maxNum ∧ minNum ≤ p.1 * p.2))).dedup)

/-- A processed tile of `_dynamic_preprocess`: a crop box
`(left, upper, right, lower)` of the resized image, or the whole-image
thumbnail (`image.resize((image_size, image_size))`). -/
inductive Tile where
  | crop : Nat → Nat → Nat → Nat → Tile
  | thumbnail : Tile
deriving DecidableEq

/-- The tiling section of `AIModelService._dynamic_preprocess` once the
grid `pr = (i, j)` is chosen: resize to `(s*i, s*j)`, crop `i*j` blocks in
loop order, then append the thumbnail when requested and the grid is not a
single tile. -/
def tileImage (pr : ℕ × ℕ) (imageSize : ℕ) (useThumbnail : Bool) : List Tile :=
  let targetWidth := imageSize * pr.1
  let blocks := pr.1 * pr.2
  let grid := (List.range blocks).map (fun k =>
    Tile.crop
      ((k % (targetWidth / imageSize)) * imageSize)
      ((k / (targetWidth / imageSize)) * imageSize)
      (((k % (targetWidth / imageSize)) + 1) * imageSize)
      (((k / (targetWidth / imageSize)) + 1) * imageSize))
  if useThumbnail && grid.length != 1 then grid ++ [Tile.thumbnail] else grid

/-- Model of `AIModelService._dynamic_preprocess` end to end: aspect ratio of the
original image, candidate enumeration, selection, tiling. -/
def dynamicPreprocess (origWidth origHeight minNum maxNum imageSize : ℕ)
    (useThumbnail : Bool) : List Tile :=
  tileImage
    (findClosestAspectRatioPair ((origWidth : ℚ) / (origHeight : ℚ))
      (targetRatios minNum maxNum) origWidth origHeight imageSize)
    imageSize useThumbnail

/-- A per-image result entry of `OCRService.process_folder` (success
entries carry `raw_text` and `products`; failure entries carry `error`). -/
structure BatchEntry where
  filename : String
  success : Bool
  raw_text : Option String
  products : Option (List Product)
  error : Option String
deriving DecidableEq

/-- The entry the folder loop appends for one image, given the outcome of
the per-image work (`extract_text_from_image` then `parse_ocr_response`),
whose raised exceptions the loop catches. -/
def mkBatchEntry (fn : String) (outcome : Except String (String × List Product)) : BatchEntry :=
  match outcome with
  | Except.ok res => BatchEntry.mk fn true (some res.1) (some res.2) Option.none
  | Except.error e => BatchEntry.mk fn false Option.none Option.none (some e)

/-- The summary block of `process_folder`'s return value. -/
structure BatchSummary where
  total : Nat
  successful : Nat
  failed : Nat
deriving DecidableEq

/-- The full return value of `process_folder`. -/
structure FolderResult where
  success : Bool
  folder_path : String
  summary : BatchSummary
  results : List BatchEntry
deriving DecidableEq

/-- Model of `os.path.join` for the relative filenames the folder loop passes. -/
def joinPath (a b : String) : String := a ++ "/" ++ b

/-- Model of `OCRService.process_folder`: run each image in order with per-image
exception isolation, then count successes.  The per-image work
(model inference plus parsing) is the `runImage` parameter. -/
def processFolder (runImage : String → Except String (String × List Product))
    (folderPath : String) (imageFiles : List String) : FolderResult :=
  let results := imageFiles.map (fun fn => mkBatchEntry fn (runImage (joinPath folderPath fn)))
  let successful := (results.filter (fun r => r.success)).length
  FolderResult.mk true folderPath
    (BatchSummary.mk results.length successful (results.length - successful)) results

/-- Ratio difference of a candidate pair against the image aspect value
(`abs(aspect_ratio - ratio[0] / ratio[1])` in the loop). -/
def diffOf (ar : ℚ) (pr : ℕ × ℕ) : ℚ :=
  |ar - (pr.1 : ℚ) / (pr.2 : ℚ)|

/-- The embedded JSON array of the fallback test. -/
def beerJsonText : String :=
  "[\x7b\"ten_hang\":\"Beer\",\"so_luong\":\"3\",\"don_gia\":\"15000\",\"thanh_tien\":\"45000\"\x7d]"

set_option maxRecDepth 10000

theorem dropWhile_dropWhile (p : Char → Bool) (l : List Char) :
    (l.dropWhile p).dropWhile p = l.dropWhile p := by
  induction l with
  | nil => rfl
  | cons c cs ih =>
    rw [List.dropWhile_cons]
    by_cases hc : p c = true
    · simp [hc, ih]
    · simp [List.dropWhile_cons, hc]

theorem rstripList_cons (c : Char) (cs : List Char) :
    rstripList (c :: cs) =
      if (rstripList cs).isEmpty && isPySpace c then [] else c :: rstripList cs := rfl

theorem rstripList_idem (l : List Char) : rstripList (rstripList l) = rstripList l := by
  induction l with
  | nil => rfl
  | cons c cs ih =>
    by_cases hc : ((rstripList cs).isEmpty && isPySpace c) = true
    · rw [rstripList_cons, if_pos hc]
      rfl
    · rw [rstripList_cons, if_neg hc, rstripList_cons, ih, if_neg hc]

theorem dropWhile_rstripList (l : List Char) (h : l.dropWhile isPySpace = l) :
    (rstripList l).dropWhile isPySpace = rstripList l := by
  cases l with
  | nil => rfl
  | cons c cs =>
    have hc : isPySpace c = false := by
      by_contra hcc
      rw [Bool.not_eq_false] at hcc
      rw [List.dropWhile_cons, if_pos hcc] at h
      have hlen := (List.dropWhile_sublist (l := cs) isPySpace).length_le
      rw [h, List.length_cons] at hlen
      omega
    simp [rstripList_cons, hc, List.dropWhile_cons]

theorem pyStripList_idem (l : List Char) :
    pyStripList (pyStripList l) = pyStripList l := by
  unfold pyStripList
  rw [dropWhile_rstripList _ (dropWhile_dropWhile _ _), rstripList_idem]

theorem pyStrip_idem (s : String) : pyStrip (pyStrip s) = pyStrip s := by
  unfold pyStrip
  rw [show (String.mk (pyStripList s.toList)).toList = pyStripList s.toList from rfl,
    pyStripList_idem]

theorem dictGet_absent (kvs : List (String × PyVal)) (key : String) (d : PyVal)
    (h : ∀ kv ∈ kvs, kv.1 ≠ key) : dictGet kvs key d = d := by
  have hnone : kvs.reverse.find? (fun kv => kv.1 == key) = Option.none :=
    List.find?_eq_none.mpr (fun x hx => by simpa using h x (List.mem_reverse.mp hx))
  simp [dictGet, hnone]

theorem normalizeProductData_dicts (rows : List (List (String × PyVal))) :
    normalizeProductData (rows.map PyVal.dict) =
      Except.ok ((rows.map mkRespRecord).filter (fun r => r.name != "")) := by
  induction rows with
  | nil => rfl
  | cons kvs rest ih =>
    simp only [List.map_cons, normalizeProductData, ih, List.filter_cons]
    by_cases hname : (mkRespRecord kvs).name = ""
    · simp [hname]
    · simp [hname]

/-- Claim C3: parsing the three-line markdown table
`"Name | Qty | Price | Total\n---|---|---|---\nRice | 2 | 20000 | 40000"`
yields exactly one record `name="Rice"`, `quantity="2"`,
`unit_price="20000"`, `total="40000"`. -/
theorem claim3_rice_table :
    parseOcrResponse "Name | Qty | Price | Total\n---|---|---|---\nRice | 2 | 20000 | 40000" =
      Except.ok [Product.mk "Rice" "2" "20000" "40000"] := rfl

/-- Claim C10: the parser is not total: on `"[1, 2]"` the JSON fallback
decodes to an array of bare numbers, and normalization raises
(`AttributeError`, since an `int` has no `.get`) instead of returning a
record list. -/
theorem claim10_nonmapping_fallback_raises :
    parseOcrResponseToJson "[1, 2]" = [PyVal.int 1, PyVal.int 2] ∧
    parseOcrResponse "[1, 2]" =
      Except.error "AttributeError: object has no attribute get" :=
  ⟨rfl, rfl⟩

/-- Claim C4 counterexample: a row whose `so_luong` field is present but
empty is normalized to `quantity = ""`, not to the claimed default `"0"`
(the `"0"` default applies only when the key is absent). -/
theorem claim4_counterexample :
    normalizeProductData
        [PyVal.dict [("ten_hang", PyVal.str "x"), ("so_luong", PyVal.str "")]] =
      Except.ok [Product.mk "x" "" "0" "0"] ∧
    ("" : String) ≠ "0" :=
  ⟨rfl, by decide⟩

/-- Claim C4 (amended): on a list of row mappings the normalizer never
raises; its output is the per-row records (each field
`str(...).strip()`-ed) filtered to those with non-empty trimmed name, in
input order, so the output is never longer than the input; and the `"0"`
default for `quantity`/`unit_price`/`total` (and `""` for `name`) applies
when the key is absent. -/
theorem claim4_normalizer_spec (rows : List (List (String × PyVal))) :
    normalizeProductData (rows.map PyVal.dict) =
      Except.ok ((rows.map mkRespRecord).filter (fun r => r.name != "")) ∧
    ((rows.map mkRespRecord).filter (fun r => r.name != "")).length ≤ rows.length ∧
    (∀ kvs : List (String × PyVal), (∀ kv ∈ kvs, kv.1 ≠ "so_luong") →
      (mkRespRecord kvs).quantity = "0") ∧
    (∀ kvs : List (String × PyVal), (∀ kv ∈ kvs, kv.1 ≠ "don_gia") →
      (mkRespRecord kvs).unit_price = "0") ∧
    (∀ kvs : List (String × PyVal), (∀ kv ∈ kvs, kv.1 ≠ "thanh_tien") →
      (mkRespRecord kvs).total = "0") ∧
    (∀ kvs : List (String × PyVal), (∀ kv ∈ kvs, kv.1 ≠ "ten_hang") →
      (mkRespRecord kvs).name = "") := by
  refine ⟨normalizeProductData_dicts rows,
    le_trans (List.length_filter_le _ _) (by simp),
    fun kvs h => ?_, fun kvs h => ?_, fun kvs h => ?_, fun kvs h => ?_⟩
  all_goals
    simp only [mkRespRecord, dictGet_absent _ _ _ h]
  all_goals rfl

/-- Claim C4 witness: the amended normalizer specification evaluated on a
concrete two-row input. -/
theorem claim4_normalizer_spec_witness :
    normalizeProductData
        ([[("ten_hang", PyVal.str " a ")], []].map PyVal.dict) =
      Except.ok ((([[("ten_hang", PyVal.str " a ")], []]).map mkRespRecord).filter
        (fun r => r.name != "")) ∧
    ((([[("ten_hang", PyVal.str " a ")], []]).map mkRespRecord).filter
        (fun r => r.name != "")).length ≤ ([[("ten_hang", PyVal.str " a ")], []]).length ∧
    (∀ kvs : List (String × PyVal), (∀ kv ∈ kvs, kv.1 ≠ "so_luong") →
      (mkRespRecord kvs).quantity = "0") ∧
    (∀ kvs : List (String × PyVal), (∀ kv ∈ kvs, kv.1 ≠ "don_gia") →
      (mkRespRecord kvs).unit_price = "0") ∧
    (∀ kvs : List (String × PyVal), (∀ kv ∈ kvs, kv.1 ≠ "thanh_tien") →
      (mkRespRecord kvs).total = "0") ∧
    (∀ kvs : List (String × PyVal), (∀ kv ∈ kvs, kv.1 ≠ "ten_hang") →
      (mkRespRecord kvs).name = "") :=
  claim4_normalizer_spec [[("ten_hang", PyVal.str " a ")], []]

/-- Claim C5 counterexample: the `ResponseParser` normalizer is not
idempotent.  Normalizing `[dict ten_hang="x"]` yields one record, but
normalizing that output again (records carry English keys, the normalizer
reads domain keys) drops every record, so
`normalize (normalize L) ≠ normalize L`. -/
theorem claim5_counterexample :
    normalizeProductData [PyVal.dict [("ten_hang", PyVal.str "x")]] =
      Except.ok [Product.mk "x" "0" "0" "0"] ∧
    normalizeProductData ([Product.mk "x" "0" "0" "0"].map respProductToDict) =
      Except.ok [] ∧
    ([] : List Product) ≠ [Product.mk "x" "0" "0" "0"] :=
  ⟨rfl, rfl, by decide⟩

theorem mkUtilsRecord_toDict (p : UtilsProduct) :
    mkUtilsRecord [("ten_hang", PyVal.str p.ten_hang), ("so_luong", PyVal.str p.so_luong),
        ("don_gia", PyVal.str p.don_gia), ("thanh_tien", PyVal.str p.thanh_tien)] =
      UtilsProduct.mk (pyStrip p.ten_hang) (pyStrip p.so_luong)
        (pyStrip p.don_gia) (pyStrip p.thanh_tien) := rfl

/-- Every record emitted by `utils.normalize_product_data` has all four
fields already stripped and a non-empty name. -/
theorem utilsNormalize_output_invariant :
    ∀ (l : List PyVal) (ps : List UtilsProduct),
      utilsNormalizeProductData l = Except.ok ps →
      ∀ p ∈ ps, pyStrip p.ten_hang = p.ten_hang ∧ pyStrip p.so_luong = p.so_luong ∧
        pyStrip p.don_gia = p.don_gia ∧ pyStrip p.thanh_tien = p.thanh_tien ∧
        p.ten_hang ≠ "" := by
  intro l
  induction l with
  | nil =>
    intro ps hps p hp
    simp only [utilsNormalizeProductData] at hps
    cases hps
    simp at hp
  | cons v rest ih =>
    intro ps hps p hp
    match v with
    | PyVal.dict kvs =>
      simp only [utilsNormalizeProductData] at hps
      cases htl : utilsNormalizeProductData rest with
      | error e =>
        rw [htl] at hps
        exact Except.noConfusion hps
      | ok tl =>
        rw [htl] at hps
        dsimp only at hps
        by_cases hname : (mkUtilsRecord kvs).ten_hang = ""
        · rw [if_pos hname] at hps
          cases hps
          exact ih _ htl p hp
        · rw [if_neg hname] at hps
          cases hps
          cases hp with
          | head =>
            refine ⟨?_, ?_, ?_, ?_, hname⟩ <;>
              simp only [mkUtilsRecord, pyStrip_idem]
          | tail _ hmem => exact ih _ htl p hmem
    | PyVal.str s =>
      simp only [utilsNormalizeProductData] at hps
      exact Except.noConfusion hps
    | PyVal.int n =>
      simp only [utilsNormalizeProductData] at hps
      exact Except.noConfusion hps
    | PyVal.float f =>
      simp only [utilsNormalizeProductData] at hps
      exact Except.noConfusion hps
    | PyVal.bool b =>
      simp only [utilsNormalizeProductData] at hps
      exact Except.noConfusion hps
    | PyVal.null =>
      simp only [utilsNormalizeProductData] at hps
      exact Except.noConfusion hps
    | PyVal.list xs =>
      simp only [utilsNormalizeProductData] at hps
      exact Except.noConfusion hps

/-- Claim C5 (amended): the standalone `utils.normalize_product_data`,
whose output rows reuse the domain keys, is idempotent: re-normalizing its
own output returns the identical list.  (The `ResponseParser` variant is
not: it reads domain keys but writes English keys, so a second pass drops
every record — see the counterexample.) -/
theorem claim5_utils_idempotent (l : List PyVal) (ps : List UtilsProduct)
    (h : utilsNormalizeProductData l = Except.ok ps) :
    utilsNormalizeProductData (ps.map utilsProductToDict) = Except.ok ps := by
  have hinv := utilsNormalize_output_invariant l ps h
  clear h
  induction ps with
  | nil => rfl
  | cons p rest ih =>
    have hp := hinv p (List.mem_cons_self p rest)
    have hrec : mkUtilsRecord
        [("ten_hang", PyVal.str p.ten_hang), ("so_luong", PyVal.str p.so_luong),
         ("don_gia", PyVal.str p.don_gia), ("thanh_tien", PyVal.str p.thanh_tien)] = p := by
      rw [mkUtilsRecord_toDict, hp.1, hp.2.1, hp.2.2.1, hp.2.2.2.1]
    simp only [List.map_cons, utilsNormalizeProductData, utilsProductToDict,
      ih (fun q hq => hinv q (List.mem_cons_of_mem p hq)), hrec]
    rw [if_neg hp.2.2.2.2]

/-- Claim C5 witness: idempotence applied to a concrete one-row input. -/
theorem claim5_utils_idempotent_witness :
    utilsNormalizeProductData [PyVal.dict [("ten_hang", PyVal.str "x")]] =
      Except.ok [UtilsProduct.mk "x" "0" "0" "0"] ∧
    utilsNormalizeProductData ([UtilsProduct.mk "x" "0" "0" "0"].map utilsProductToDict) =
      Except.ok [UtilsProduct.mk "x" "0" "0" "0"] :=
  ⟨rfl, claim5_utils_idempotent [PyVal.dict [("ten_hang", PyVal.str "x")]]
    [UtilsProduct.mk "x" "0" "0" "0"] rfl⟩

/-- Claim C6 counterexample: the line `"|"` consists only of the
characters pipe/dash/colon/whitespace, yet the parser state machine does
not transition to the after-separator state on it (the separator pattern
`^[\|\s]*---` requires a literal `---`): the state stays `false`. -/
theorem claim6_counterexample :
    "|".toList.all (fun c => c == '|' || c == '-' || c == ':' || isPySpace c) = true ∧
    lineStep (false, []) "|".toList = (false, []) :=
  ⟨rfl, rfl⟩

/-- Claim C6 (amended): every line matching the separator pattern
`^[\|\s]*---` (a run of pipes and whitespace followed by `---`, whatever
follows) transitions the state machine from before-separator to
after-separator and emits no row for that line. -/
theorem claim6_separator_transition (line : List Char) (ps : List PyVal)
    (h : isSeparatorLine (pyStripList line) = true) :
    lineStep (false, ps) line = (true, ps) := by
  unfold lineStep
  cases hl : pyStripList line with
  | nil => rw [hl] at h; cases h
  | cons c cs =>
    rw [hl] at h
    simp only [hl, List.isEmpty_cons, h, if_true, Bool.false_eq_true, if_false]

/-- Claim C6 witness: the separator transition on the concrete line
`"---|---|---"`. -/
theorem claim6_separator_transition_witness :
    isSeparatorLine (pyStripList "---|---|---".toList) = true ∧
    lineStep (false, []) "---|---|---".toList = (true, []) :=
  ⟨rfl, claim6_separator_transition "---|---|---".toList [] rfl⟩

/-- Claim C7 counterexample: a text that contains the Beer JSON array as a
substring and produces zero table rows, yet yields no record: the greedy
extraction runs to the *last* `]` of the whole text, producing a
non-decodable superstring, and the parser silently returns the empty
list instead of one `Beer` record. -/
theorem claim7_counterexample :
    containsSub beerJsonText.toList (beerJsonText ++ " ]").toList = true ∧
    parseTableRows (beerJsonText ++ " ]") = [] ∧
    parseOcrResponse (beerJsonText ++ " ]") = Except.ok [] ∧
    (Except.ok [] : Except String (List Product)) ≠
      Except.ok [Product.mk "Beer" "3" "15000" "45000"] :=
  ⟨rfl, rfl, rfl, by simp⟩

/-- Claim C7 (amended): whenever the table pass yields zero rows and the
greedy bracket extraction yields exactly the Beer JSON array, the fallback
decodes it and the parser returns exactly one record with name `"Beer"`. -/
theorem claim7_beer_fallback (t : String)
    (h1 : parseTableRows t = [])
    (h2 : extractJson t.toList = some beerJsonText.toList) :
    parseOcrResponse t = Except.ok [Product.mk "Beer" "3" "15000" "45000"] := by
  have hjson : jsonLoads beerJsonText.toList = some (PyVal.list [PyVal.dict
      [("ten_hang", PyVal.str "Beer"), ("so_luong", PyVal.str "3"),
       ("don_gia", PyVal.str "15000"), ("thanh_tien", PyVal.str "45000")]]) := rfl
  simp only [parseOcrResponse, parseOcrResponseToJson, h1, h2, hjson,
    List.isEmpty_nil, if_true]
  rfl

/-- Claim C7 witness: the fallback applied to the text that is exactly the
Beer JSON array. -/
theorem claim7_beer_fallback_witness :
    parseTableRows beerJsonText = [] ∧
    extractJson beerJsonText.toList = some beerJsonText.toList ∧
    parseOcrResponse beerJsonText =
      Except.ok [Product.mk "Beer" "3" "15000" "45000"] :=
  ⟨rfl, rfl, claim7_beer_fallback beerJsonText rfl rfl⟩

/-- Claim C8: when the table pass yields zero rows, a bracket substring is
extracted, and it fails to decode, the parser returns the empty record
list without raising — indistinguishable from parsing text with no data
at all (the empty string). -/
theorem claim8_decode_failure_silent (t : String) (sub : List Char)
    (h1 : parseTableRows t = [])
    (h2 : extractJson t.toList = some sub)
    (h3 : jsonLoads sub = Option.none) :
    parseOcrResponse t = Except.ok [] ∧ parseOcrResponse t = parseOcrResponse "" := by
  have hmain : parseOcrResponse t = Except.ok [] := by
    simp only [parseOcrResponse, parseOcrResponseToJson, h1, h2, h3,
      List.isEmpty_nil, if_true]
    rfl
  refine ⟨hmain, ?_⟩
  rw [hmain]
  rfl

/-- Claim C8 witness: the silent decode failure on the concrete text
`"[a]"` (extracted substring `[a]` is not valid JSON). -/
theorem claim8_decode_failure_silent_witness :
    parseTableRows "[a]" = [] ∧
    extractJson "[a]".toList = some "[a]".toList ∧
    jsonLoads "[a]".toList = Option.none ∧
    parseOcrResponse "[a]" = Except.ok [] ∧
    parseOcrResponse "[a]" = parseOcrResponse "" :=
  ⟨rfl, rfl, rfl, (claim8_decode_failure_silent "[a]" "[a]".toList rfl rfl rfl).1,
    (claim8_decode_failure_silent "[a]" "[a]".toList rfl rfl rfl).2⟩

theorem mkBatchEntry_success_eq (fn : String) (o : Except String (String × List Product)) :
    (mkBatchEntry fn o).success = o.isOk := by
  cases o <;> rfl

theorem mkBatchEntry_filename_eq (fn : String) (o : Except String (String × List Product)) :
    (mkBatchEntry fn o).filename = fn := by
  cases o <;> rfl

theorem length_filter_not_eq {α : Type} (p : α → Bool) (l : List α) :
    (l.filter (fun a => !p a)).length = l.length - (l.filter p).length := by
  induction l with
  | nil => rfl
  | cons a t ih =>
    have hle := List.length_filter_le p t
    cases hpa : p a <;> simp [List.filter_cons, hpa, ih] <;> omega

/-- Claim C9: `process_folder` over N images of which M fail returns the
summary `total = N`, `successful = N - M`, `failed = M`; its results list
has exactly one entry per image, in input order; the k-th entry depends
only on the k-th image's own outcome (failure isolation); and a failed
image's entry has `success = false` (entry success equals the outcome's
success). -/
theorem claim9_process_folder
    (runImage : String → Except String (String × List Product))
    (folder : String) (files : List String) :
    (processFolder runImage folder files).summary.total = files.length ∧
    (processFolder runImage folder files).summary.failed =
      (files.filter (fun fn => !(runImage (joinPath folder fn)).isOk)).length ∧
    (processFolder runImage folder files).summary.successful =
      files.length -
        (files.filter (fun fn => !(runImage (joinPath folder fn)).isOk)).length ∧
    (processFolder runImage folder files).results.length = files.length ∧
    (∀ k : Nat, (processFolder runImage folder files).results.get? k =
      (files.get? k).map (fun fn => mkBatchEntry fn (runImage (joinPath folder fn)))) ∧
    (∀ e ∈ (processFolder runImage folder files).results,
      e.success = (runImage (joinPath folder e.filename)).isOk) := by
  have hsucc : (processFolder runImage folder files).summary.successful =
      (files.filter (fun fn => (runImage (joinPath folder fn)).isOk)).length := by
    show ((files.map (fun fn => mkBatchEntry fn (runImage (joinPath folder fn)))).filter
        (fun r => r.success)).length = _
    rw [List.filter_map, List.length_map]
    congr 1
    exact List.filter_congr (fun fn _ => by
      simp [Function.comp, mkBatchEntry_success_eq])
  have hM : (files.filter (fun fn => !(runImage (joinPath folder fn)).isOk)).length =
      files.length - (files.filter (fun fn => (runImage (joinPath folder fn)).isOk)).length :=
    length_filter_not_eq _ files
  have hSle := List.length_filter_le
    (fun fn => (runImage (joinPath folder fn)).isOk) files
  have htot : (processFolder runImage folder files).summary.total = files.length := by
    show (files.map (fun fn => mkBatchEntry fn (runImage (joinPath folder fn)))).length = _
    exact List.length_map _ _
  have hfail : (processFolder runImage folder files).summary.failed =
      (processFolder runImage folder files).summary.total -
        (processFolder runImage folder files).summary.successful := by
    show (files.map _).length - _ = _
    rfl
  refine ⟨htot, ?_, ?_, ?_, ?_, ?_⟩
  · rw [hfail, htot, hsucc, hM]
  · rw [hsucc, hM]
    omega
  · show (files.map (fun fn => mkBatchEntry fn (runImage (joinPath folder fn)))).length = _
    exact List.length_map _ _
  · intro k
    exact List.get?_map _ files k
  · intro e he
    show e.success = _
    rcases List.mem_map.mp he with ⟨fn, _, rfl⟩
    rw [mkBatchEntry_filename_eq, mkBatchEntry_success_eq]

theorem ratioStep_none_eq (ar area : ℚ) (s : ℕ) (b pr : ℕ × ℕ) :
    ratioStep ar area s (Option.none, b) pr = (some (diffOf ar pr), pr) := rfl

theorem ratioStep_some_eq (ar area : ℚ) (s : ℕ) (d : ℚ) (b pr : ℕ × ℕ) :
    ratioStep ar area s (some d, b) pr =
      if diffOf ar pr < d then (some (diffOf ar pr), pr)
      else if diffOf ar pr = d then
        (if area > 1 / 2 * (s : ℚ) * (s : ℚ) * (pr.1 : ℚ) * (pr.2 : ℚ)
          then (some d, pr) else (some d, b))
      else (some d, b) := rfl

/-- Loop invariant of `_find_closest_aspect_ratio`: starting from a best
pair whose difference is the recorded best difference, the fold returns a
pair achieving the minimum difference over the visited candidates. -/
theorem foldl_ratioStep_invariant (ar area : ℚ) (s : ℕ) :
    ∀ (l : List (ℕ × ℕ)) (d : ℚ) (b : ℕ × ℕ), diffOf ar b = d →
      ∃ d2 b2, l.foldl (ratioStep ar area s) (some d, b) = (some d2, b2) ∧
        diffOf ar b2 = d2 ∧ d2 ≤ d ∧ (b2 = b ∨ b2 ∈ l) ∧
        ∀ pr ∈ l, d2 ≤ diffOf ar pr := by
  intro l
  induction l with
  | nil =>
    intro d b hb
    exact ⟨d, b, rfl, hb, le_refl d, Or.inl rfl, by simp⟩
  | cons p rest ih =>
    intro d b hb
    rw [List.foldl_cons, ratioStep_some_eq]
    by_cases h1 : diffOf ar p < d
    · rw [if_pos h1]
      rcases ih (diffOf ar p) p rfl with ⟨d2, b2, heq, hdi, hle, hmem, hmin⟩
      refine ⟨d2, b2, heq, hdi, le_trans hle (le_of_lt h1), ?_, ?_⟩
      · rcases hmem with hB | hB
        · exact Or.inr (hB ▸ List.mem_cons_self p rest)
        · exact Or.inr (List.mem_cons_of_mem p hB)
      · intro q hq
        rcases List.mem_cons.mp hq with rfl | hq2
        · exact hle
        · exact hmin q hq2
    · rw [if_neg h1]
      by_cases h2 : diffOf ar p = d
      · rw [if_pos h2]
        by_cases h3 : area > 1 / 2 * (s : ℚ) * (s : ℚ) * (p.1 : ℚ) * (p.2 : ℚ)
        · rw [if_pos h3]
          rcases ih d p h2 with ⟨d2, b2, heq, hdi, hle, hmem, hmin⟩
          refine ⟨d2, b2, heq, hdi, hle, ?_, ?_⟩
          · rcases hmem with hB | hB
            · exact Or.inr (hB ▸ List.mem_cons_self p rest)
            · exact Or.inr (List.mem_cons_of_mem p hB)
          · intro q hq
            rcases List.mem_cons.mp hq with rfl | hq2
            · exact le_trans hle (le_of_eq h2.symm)
            · exact hmin q hq2
        · rw [if_neg h3]
          rcases ih d b hb with ⟨d2, b2, heq, hdi, hle, hmem, hmin⟩
          refine ⟨d2, b2, heq, hdi, hle, ?_, ?_⟩
          · rcases hmem with hB | hB
            · exact Or.inl hB
            · exact Or.inr (List.mem_cons_of_mem p hB)
          · intro q hq
            rcases List.mem_cons.mp hq with rfl | hq2
            · exact le_trans hle (le_of_eq h2.symm)
            · exact hmin q hq2
      · rw [if_neg h2]
        rcases ih d b hb with ⟨d2, b2, heq, hdi, hle, hmem, hmin⟩
        have hdp : d ≤ diffOf ar p := le_of_not_lt h1
        refine ⟨d2, b2, heq, hdi, hle, ?_, ?_⟩
        · rcases hmem with hB | hB
          · exact Or.inl hB
          · exact Or.inr (List.mem_cons_of_mem p hB)
        · intro q hq
          rcases List.mem_cons.mp hq with rfl | hq2
          · exact le_trans hle hdp
          · exact hmin q hq2

/-- On a non-empty candidate list the selector returns a member of the
list whose ratio difference is minimal among all candidates. -/
theorem findClosestAspectRatioPair_spec (ar : ℚ) (w h s : ℕ)
    (l : List (ℕ × ℕ)) (hne : l ≠ []) :
    findClosestAspectRatioPair ar l w h s ∈ l ∧
    ∀ pr ∈ l, diffOf ar (findClosestAspectRatioPair ar l w h s) ≤ diffOf ar pr := by
  match l, hne with
  | p :: rest, _ =>
    unfold findClosestAspectRatioPair
    rw [List.foldl_cons, ratioStep_none_eq]
    rcases foldl_ratioStep_invariant ar ((w : ℚ) * (h : ℚ)) s rest (diffOf ar p) p rfl with
      ⟨d2, b2, heq, hdi, hle, hmem, hmin⟩
    rw [heq]
    dsimp only
    constructor
    · rcases hmem with hB | hB
      · exact hB ▸ List.mem_cons_self p rest
      · exact List.mem_cons_of_mem p hB
    · intro q hq
      rcases List.mem_cons.mp hq with rfl | hq2
      · exact hdi ▸ hle
      · exact hdi ▸ hmin q hq2

/-- Membership in the candidate enumeration is exactly the pair/bound
condition of the comprehension. -/
theorem mem_targetRatios (minN maxN : ℕ) (pr : ℕ × ℕ) :
    pr ∈ targetRatios minN maxN ↔
      1 ≤ pr.1 ∧ 1 ≤ pr.2 ∧ minN ≤ pr.1 * pr.2 ∧ pr.1 * pr.2 ≤ maxN := by
  unfold targetRatios
  rw [(List.perm_insertionSort _ _).mem_iff, List.mem_dedup, List.mem_filter]
  constructor
  · rintro ⟨hmem, hcond⟩
    rw [decide_eq_true_iff] at hcond
    rcases List.mem_flatMap.mp hmem with ⟨n, _, hmem2⟩
    rcases List.mem_flatMap.mp hmem2 with ⟨i, hi, hmem3⟩
    rcases List.mem_map.mp hmem3 with ⟨j, hj, rfl⟩
    rw [List.mem_range'_1] at hi hj
    exact ⟨hi.1, hj.1, hcond.2, hcond.1⟩
  · rintro ⟨h1, h2, h3, h4⟩
    have hp1 : pr.1 ≤ maxN := by
      have := Nat.mul_le_mul_left pr.1 h2
      rw [Nat.mul_one] at this
      omega
    have hp2 : pr.2 ≤ maxN := by
      have := Nat.mul_le_mul_right pr.2 h1
      rw [Nat.one_mul] at this
      omega
    refine ⟨List.mem_flatMap.mpr ⟨maxN, ?_,
      List.mem_flatMap.mpr ⟨pr.1, ?_, List.mem_map.mpr ⟨pr.2, ?_, rfl⟩⟩⟩, ?_⟩
    · rw [List.mem_range'_1]
      omega
    · rw [List.mem_range'_1]
      omega
    · rw [List.mem_range'_1]
      omega
    · rw [decide_eq_true_iff]
      exact ⟨h4, h3⟩

theorem targetRatios_ne_nil (minN maxN : ℕ) (hmin : 0 < minN) (hle : minN ≤ maxN) :
    targetRatios minN maxN ≠ [] := by
  intro hnil
  have hmem : (minN, 1) ∈ targetRatios minN maxN := by
    rw [mem_targetRatios]
    refine ⟨hmin, le_refl 1, ?_, ?_⟩ <;> rw [Nat.mul_one] <;> omega
  rw [hnil] at hmem
  exact List.not_mem_nil _ hmem

/-- Claim C1: for positive `w`, `h`, `s` and bounds `0 < minT ≤ maxT`, the
selected grid `(i, j)` lies within the tile-count bounds, its ratio
difference `|w/h - i/j|` is minimal among all candidate pairs, the
selection is deterministic, and on a tie of ratio difference the incumbent
best pair is replaced by the new pair exactly when
`w*h > 0.5 * s*s * i*j` holds for the new pair. -/
theorem claim1_selector_spec (w h s minT maxT : ℕ)
    (hw : 0 < w) (hh : 0 < h) (hs : 0 < s) (hminT : 0 < minT) (hle : minT ≤ maxT) :
    (∃ i j : ℕ,
      findClosestAspectRatioPair ((w : ℚ) / (h : ℚ)) (targetRatios minT maxT) w h s = (i, j) ∧
      minT ≤ i * j ∧ i * j ≤ maxT ∧
      (∀ i2 j2 : ℕ, 1 ≤ i2 → 1 ≤ j2 → minT ≤ i2 * j2 → i2 * j2 ≤ maxT →
        |(w : ℚ) / (h : ℚ) - (i : ℚ) / (j : ℚ)| ≤
          |(w : ℚ) / (h : ℚ) - (i2 : ℚ) / (j2 : ℚ)|)) ∧
    findClosestAspectRatioPair ((w : ℚ) / (h : ℚ)) (targetRatios minT maxT) w h s =
      findClosestAspectRatioPair ((w : ℚ) / (h : ℚ)) (targetRatios minT maxT) w h s ∧
    (∀ (d : ℚ) (b pr : ℕ × ℕ), diffOf ((w : ℚ) / (h : ℚ)) pr = d →
      ratioStep ((w : ℚ) / (h : ℚ)) ((w : ℚ) * (h : ℚ)) s (some d, b) pr =
        (some d,
          if (w : ℚ) * (h : ℚ) > 1 / 2 * (s : ℚ) * (s : ℚ) * (pr.1 : ℚ) * (pr.2 : ℚ)
          then pr else b)) := by
  obtain ⟨hmem, hmin⟩ := findClosestAspectRatioPair_spec ((w : ℚ) / (h : ℚ)) w h s
    (targetRatios minT maxT) (targetRatios_ne_nil minT maxT hminT hle)
  obtain ⟨hp1, hp2, hp3, hp4⟩ := (mem_targetRatios minT maxT _).mp hmem
  refine ⟨⟨(findClosestAspectRatioPair ((w : ℚ) / (h : ℚ)) (targetRatios minT maxT) w h s).1,
    (findClosestAspectRatioPair ((w : ℚ) / (h : ℚ)) (targetRatios minT maxT) w h s).2,
    rfl, hp3, hp4, ?_⟩, rfl, ?_⟩
  · intro i2 j2 h1 h2 h3 h4
    have hmem2 : (i2, j2) ∈ targetRatios minT maxT :=
      (mem_targetRatios minT maxT (i2, j2)).mpr ⟨h1, h2, h3, h4⟩
    have := hmin (i2, j2) hmem2
    simpa [diffOf] using this
  · intro d b pr hd
    rw [ratioStep_some_eq]
    rw [if_neg (by rw [hd]; exact lt_irrefl d), if_pos hd]
    by_cases h3 : (w : ℚ) * (h : ℚ) > 1 / 2 * (s : ℚ) * (s : ℚ) * (pr.1 : ℚ) * (pr.2 : ℚ)
    · rw [if_pos h3, if_pos h3]
    · rw [if_neg h3, if_neg h3]

/-- Claim C1 witness: the selector specification at
`w=2, h=1, s=1, minTiles=1, maxTiles=2`. -/
theorem claim1_selector_spec_witness :
    (0 < 2 ∧ 0 < 1 ∧ 0 < 1 ∧ 0 < 1 ∧ 1 ≤ 2) ∧
    ((∃ i j : ℕ,
      findClosestAspectRatioPair (((2 : ℕ) : ℚ) / ((1 : ℕ) : ℚ)) (targetRatios 1 2) 2 1 1 =
        (i, j) ∧
      1 ≤ i * j ∧ i * j ≤ 2 ∧
      (∀ i2 j2 : ℕ, 1 ≤ i2 → 1 ≤ j2 → 1 ≤ i2 * j2 → i2 * j2 ≤ 2 →
        |((2 : ℕ) : ℚ) / ((1 : ℕ) : ℚ) - (i : ℚ) / (j : ℚ)| ≤
          |((2 : ℕ) : ℚ) / ((1 : ℕ) : ℚ) - (i2 : ℚ) / (j2 : ℚ)|)) ∧
    findClosestAspectRatioPair (((2 : ℕ) : ℚ) / ((1 : ℕ) : ℚ)) (targetRatios 1 2) 2 1 1 =
      findClosestAspectRatioPair (((2 : ℕ) : ℚ) / ((1 : ℕ) : ℚ)) (targetRatios 1 2) 2 1 1 ∧
    (∀ (d : ℚ) (b pr : ℕ × ℕ), diffOf (((2 : ℕ) : ℚ) / ((1 : ℕ) : ℚ)) pr = d →
      ratioStep (((2 : ℕ) : ℚ) / ((1 : ℕ) : ℚ)) (((2 : ℕ) : ℚ) * ((1 : ℕ) : ℚ)) 1
          (some d, b) pr =
        (some d,
          if ((2 : ℕ) : ℚ) * ((1 : ℕ) : ℚ) >
              1 / 2 * ((1 : ℕ) : ℚ) * ((1 : ℕ) : ℚ) * (pr.1 : ℚ) * (pr.2 : ℚ)
          then pr else b))) :=
  ⟨⟨by decide, by decide, by decide, by decide, by decide⟩,
    claim1_selector_spec 2 1 1 1 2 (by decide) (by decide) (by decide) (by decide) (by decide)⟩

/-- The tiler splits into the row-major grid part plus an optional
trailing thumbnail. -/
theorem tileImage_eq (pr : ℕ × ℕ) (s : ℕ) (b : Bool) :
    tileImage pr s b =
      (List.range (pr.1 * pr.2)).map (fun k =>
        Tile.crop ((k % (s * pr.1 / s)) * s) ((k / (s * pr.1 / s)) * s)
          ((k % (s * pr.1 / s) + 1) * s) ((k / (s * pr.1 / s) + 1) * s)) ++
      (if b = true ∧ pr.1 * pr.2 ≠ 1 then [Tile.thumbnail] else []) := by
  unfold tileImage
  by_cases hb : b = true
  · subst hb
    by_cases h1 : pr.1 * pr.2 = 1
    · simp [List.length_map, List.length_range, h1]
    · simp [List.length_map, List.length_range, h1]
  · have hb2 : b = false := by
      revert hb
      cases b <;> simp
    subst hb2
    simp

/-- Claim C2: for any chosen grid `(i, j)` (cols × rows), positive tile
size and thumbnail flag, the tiler emits exactly `i*j` grid tiles in
row-major order (tile `k` is the crop at column `k mod i`, row `k div i`),
plus exactly one whole-image thumbnail placed last iff a thumbnail was
requested and `i*j ≠ 1`; the output length is never less than `i*j`. -/
theorem claim2_tiler_spec (i j s : ℕ) (b : Bool)
    (hi : 0 < i) (hj : 0 < j) (hs : 0 < s) :
    ∃ grid : List Tile,
      tileImage (i, j) s b =
        grid ++ (if b = true ∧ i * j ≠ 1 then [Tile.thumbnail] else []) ∧
      grid.length = i * j ∧
      (∀ k : ℕ, k < i * j → grid.get? k = some (Tile.crop ((k % i) * s) ((k / i) * s)
        ((k % i + 1) * s) ((k / i + 1) * s))) ∧
      Tile.thumbnail ∉ grid ∧
      i * j ≤ (tileImage (i, j) s b).length ∧
      (tileImage (i, j) s b).length = i * j + (if b = true ∧ i * j ≠ 1 then 1 else 0) := by
  have hdiv : s * i / s = i := Nat.mul_div_cancel_left i hs
  have heq := tileImage_eq (i, j) s b
  dsimp only at heq
  simp only [hdiv] at heq
  refine ⟨(List.range (i * j)).map (fun k =>
      Tile.crop ((k % i) * s) ((k / i) * s) ((k % i + 1) * s) ((k / i + 1) * s)),
    heq, ?_, ?_, ?_, ?_, ?_⟩
  · rw [List.length_map, List.length_range]
  · intro k hk
    rw [List.get?_map, List.get?_range hk]
    rfl
  · intro hmem
    rcases List.mem_map.mp hmem with ⟨k, _, hk⟩
    exact Tile.noConfusion hk
  · rw [heq, List.length_append, List.length_map, List.length_range]
    by_cases hc : b = true ∧ i * j ≠ 1
    · simp [hc]
    · simp [hc]
  · rw [heq, List.length_append, List.length_map, List.length_range]
    congr 1
    by_cases hc : b = true ∧ i * j ≠ 1
    · rw [if_pos hc, if_pos hc]
      rfl
    · rw [if_neg hc, if_neg hc]
      rfl

/-- Claim C2 witness: the tiler specification at a 2×1 grid, tile size 3,
thumbnail requested. -/
theorem claim2_tiler_spec_witness :
    (0 < 2 ∧ 0 < 1 ∧ 0 < 3) ∧
    (∃ grid : List Tile,
      tileImage (2, 1) 3 true =
        grid ++ (if true = true ∧ 2 * 1 ≠ 1 then [Tile.thumbnail] else []) ∧
      grid.length = 2 * 1 ∧
      (∀ k : ℕ, k < 2 * 1 → grid.get? k = some (Tile.crop ((k % 2) * 3) ((k / 2) * 3)
        ((k % 2 + 1) * 3) ((k / 2 + 1) * 3))) ∧
      Tile.thumbnail ∉ grid ∧
      2 * 1 ≤ (tileImage (2, 1) 3 true).length ∧
      (tileImage (2, 1) 3 true).length = 2 * 1 + (if true = true ∧ 2 * 1 ≠ 1 then 1 else 0)) :=
  ⟨⟨by decide, by decide, by decide⟩,
    claim2_tiler_spec 2 1 3 true (by decide) (by decide) (by decide)⟩

/-- A concrete per-image outcome for the batch witness: the image at path
`d/a` fails, every other image succeeds with no products. -/
def demoRunImage (p : String) : Except String (String × List Product) :=
  if p = "d/a" then Except.error "boom" else Except.ok ("text", [])

/-- Claim C9 witness: the batch specification on a concrete two-image
folder whose first image fails. -/
theorem claim9_process_folder_witness :
    (processFolder demoRunImage "d" ["a", "b"]).summary.total = ["a", "b"].length ∧
    (processFolder demoRunImage "d" ["a", "b"]).summary.failed =
      (["a", "b"].filter (fun fn => !(demoRunImage (joinPath "d" fn)).isOk)).length ∧
    (processFolder demoRunImage "d" ["a", "b"]).summary.successful =
      ["a", "b"].length -
        (["a", "b"].filter (fun fn => !(demoRunImage (joinPath "d" fn)).isOk)).length ∧
    (processFolder demoRunImage "d" ["a", "b"]).results.length = ["a", "b"].length ∧
    (∀ k : Nat, (processFolder demoRunImage "d" ["a", "b"]).results.get? k =
      (["a", "b"].get? k).map (fun fn => mkBatchEntry fn (demoRunImage (joinPath "d" fn)))) ∧
    (∀ e ∈ (processFolder demoRunImage "d" ["a", "b"]).results,
      e.success = (demoRunImage (joinPath "d" e.filename)).isOk) :=
  claim9_process_folder demoRunImage "d" ["a", "b"]
